import Mathlib

/-!
Shallow embedding of the persistence/scoring core in `database/db.py` of the
SITCON camp 2021 bot: the point-code store (`gen_point_code`, `use_point_code`,
`delete_point_code`, `get_group_point`) and the submission log / scoreboard
(`log_submission` data, `get_submissions_statistics`, `get_scoreboard`).

The sqlite tables are embedded as Lean lists of rows; each db.py function
becomes a pure function from the table state to a (result, error) pair and a
new state, mirroring the SQL statements and Python control flow line by line.
The code generator (`utils.gen_code`) and the task catalog (`task.py`) are
external collaborators and appear as parameters.
-/

namespace SitconBot

/-- One row of the `point_code` table: `code TEXT PRIMARY KEY, point INTEGER,
`used_by` INTEGER DEFAULT 0`. -/
structure PointCodeRow where
  code : String
  point : Int
  used_by : Int
deriving DecidableEq, Repr

/-- The `point_code` table. -/
abbrev PCStore := List PointCodeRow

/-- The codes present in the store (the primary-key column). -/
def codesOf (st : PCStore) : List String := st.map (fun r => r.code)

/-- `UPDATE point_code SET used_by = v WHERE code = ?`, applied to one row. -/
def updateCode (code : String) (v : Int) (s : PointCodeRow) : PointCodeRow :=
  if s.code = code then { s with used_by := v } else s

/-- Embedding of `use_point_code(code, group)` (db.py lines 67-91):
`SELECT used_by, point FROM point_code WHERE code = ?`, then the Python
checks `res is None` / `used_by > 0 or used_by == -1`, then
`UPDATE point_code SET used_by = ? WHERE code = ?`.
Returns ((point-or-none, error-or-none), new state). -/
def use_point_code (st : PCStore) (code : String) (group : Int) :
    (Option Int × Option String) × PCStore :=
  match st.find? (fun r => r.code = code) with
  | none => ((none, some "not exists"), st)
  | some r =>
    if 0 < r.used_by ∨ r.used_by = -1 then
      ((none, some "used"), st)
    else
      ((some r.point, none), st.map (updateCode code group))

/-- Embedding of `delete_point_code(code)` (db.py lines 94-113):
`SELECT 1 FROM point_code WHERE code = ? AND used_by = 0`, then on a hit
`UPDATE point_code SET used_by = -1 WHERE code = ?`.
Returns (error-or-none, new state). -/
def delete_point_code (st : PCStore) (code : String) : Option String × PCStore :=
  match st.find? (fun r => r.code = code ∧ r.used_by = 0) with
  | none => (some "used", st)
  | some _ => (none, st.map (updateCode code (-1)))

/-- Net effect of `con.executemany('INSERT INTO point_code(code, point) VALUES (?, ?)', batch)`
followed by commit/rollback: the batch persists iff no inserted code violates
the primary key, i.e. the batch codes are pairwise distinct and none is
already stored; otherwise an IntegrityError rolls everything back. -/
def insertBatch (st : PCStore) (batch : List (String × Int)) : Option PCStore :=
  if (batch.map Prod.fst).Nodup ∧ ∀ c ∈ batch.map Prod.fst, c ∉ codesOf st then
    some (st ++ batch.map (fun b => ⟨b.1, b.2, 0⟩))
  else none

/-- Embedding of `gen_point_code(point, amount)` (db.py lines 32-50).
`gen` is the external code generator `utils.gen_code`, modelled as a stream
read at successive indices; `k` is the index of the next unread token.
The `while True` retry loop is given explicit `fuel`; running out of fuel
models nontermination (the Python loop would still be retrying) and is
returned as `(none, st)` with the store untouched. -/
def gen_point_code (gen : Nat → String) (point : Int) (amount : Nat) :
    Nat → Nat → PCStore → Option (List String) × PCStore
  | 0, _, st => (none, st)
  | fuel + 1, k, st =>
    let batch := (List.range amount).map (fun i => (gen (k + i), point))
    match insertBatch st batch with
    | some st2 => (some (batch.map Prod.fst), st2)
    | none => gen_point_code gen point amount fuel (k + amount) st

/-- `SUM(point)` over the rows of one group (db.py lines 123-129). -/
def groupSum (st : PCStore) (g : Int) : Int :=
  ((st.filter (fun r => r.used_by = g)).map (fun r => r.point)).sum

/-- The distinct `used_by` values of the rows passing `WHERE used_by > 0`
(the `GROUP BY used_by` keys, db.py lines 123-129). -/
def positiveGroups (st : PCStore) : List Int :=
  ((st.filter (fun r => 0 < r.used_by)).map (fun r => r.used_by)).dedup

/-- The comparison of `ORDER BY point DESC, group ASC` on (group, point)
pairs. -/
def pcLe (a b : Int × Int) : Bool := b.2 < a.2 ∨ (a.2 = b.2 ∧ a.1 ≤ b.1)

/-- The rows produced by the SQL query of `get_group_point` (db.py lines
123-129): one (group, sum) row per distinct positive `used_by`, sorted by
point descending then group ascending. -/
def rankedPart (st : PCStore) : List (Int × Int) :=
  ((positiveGroups st).map (fun g => (g, groupSum st g))).mergeSort pcLe

/-- The Python padding loop of `get_group_point` (db.py lines 141-143):
`for i in range(1, 10): if i not in groups: res.append((i, 0))`. -/
def paddingPart (st : PCStore) : List (Int × Int) :=
  (List.range' 1 9).filterMap (fun i : Nat =>
    if (i : Int) ∈ (rankedPart st).map Prod.fst then none else some ((i : Int), 0))

/-- Embedding of `get_group_point()` (db.py lines 116-150): the sorted SQL
rows followed by the zero-padding for groups 1..9. -/
def get_group_point (st : PCStore) : List (Int × Int) :=
  rankedPart st ++ paddingPart st

/-- One row of the `submissions` table:
`group_id INTEGER, task_id TEXT, password TEXT, is_correct BOOLEAN`. -/
structure Submission where
  group_id : Int
  task_id : String
  password : String
  is_correct : Bool
deriving DecidableEq, Repr

/-- Embedding of `get_submissions_statistics(group_id, task_id)` (db.py lines
207-228): `SELECT COALESCE(SUM(is_correct = 1), 0), COALESCE(SUM(is_correct = 0), 0)
FROM submissions WHERE group_id = ? AND task_id = ?` — a running sum of 0/1
indicators over the rows passing the WHERE clause. -/
def get_submissions_statistics (subs : List Submission) (g : Int) (t : String) :
    Nat × Nat :=
  subs.foldl
    (fun acc s =>
      if s.group_id = g ∧ s.task_id = t then
        (acc.1 + (if s.is_correct then 1 else 0), acc.2 + (if s.is_correct then 0 else 1))
      else acc)
    (0, 0)

/-- The number of correct submissions of group `g` on task `t`. -/
def successCount (subs : List Submission) (g : Int) (t : String) : Nat :=
  (subs.filter (fun s => s.group_id = g ∧ s.task_id = t ∧ s.is_correct = true)).length

/-- The number of incorrect submissions of group `g` on task `t`. -/
def failCount (subs : List Submission) (g : Int) (t : String) : Nat :=
  (subs.filter (fun s => s.group_id = g ∧ s.task_id = t ∧ s.is_correct = false)).length

/-- A task of the external catalog (`task.py`): an id and an optional
`max_attempt` field (the Python dict may or may not carry the key). -/
structure Task where
  task_id : String
  max_attempt : Option Int
deriving DecidableEq, Repr

/-- Modelled from the spec: `task.py` (the Task Catalog collaborator) is not
under src/; per the spec, `GetTaskById(id) -> Task or absent` looks a task up
by its id in the catalog. -/
def get_task_by_id (catalog : List Task) (t : String) : Option Task :=
  catalog.find? (fun tk => tk.task_id = t)

/-- The distinct `(group_id, task_id)` keys of `GROUP BY group_id, task_id`
over the submissions, in first-occurrence order. -/
def distinctPairs (subs : List Submission) : List (Int × String) :=
  subs.foldl
    (fun acc s =>
      if (s.group_id, s.task_id) ∈ acc then acc else acc ++ [(s.group_id, s.task_id)])
    []

/-- The rows of the `get_scoreboard` SQL query (db.py lines 252-259): one
`(group_id, task_id, success_count, fail_count)` row per distinct pair. -/
def groupedRows (subs : List Submission) : List (Int × String × Nat × Nat) :=
  (distinctPairs subs).map (fun p => (p.1, p.2, successCount subs p.1 p.2, failCount subs p.1 p.2))

/-- An uncaught Python exception escaping `get_scoreboard` (its handler
catches only `sqlite3.Error`): `keyError g` is the `KeyError` of
`table[group_id]` for a group outside the `range(1, 10)` keys, `typeError t`
is the `TypeError` of `'max_attempt' in task` when `get_task_by_id` returned
no task. -/
inductive ScoreErr where
  | keyError (g : Int)
  | typeError (t : String)
deriving DecidableEq, Repr

/-- The per-row status computation of `get_scoreboard` (db.py lines 264-269):
`status = 0; if 'max_attempt' in task and fail_count >= task['max_attempt']:
status = -1; elif success_count > 0: status = 1`. -/
def rowStatus (task : Task) (sc fc : Nat) : Int :=
  match task.max_attempt with
  | some m => if m ≤ (fc : Int) then -1 else if 0 < sc then 1 else 0
  | none => if 0 < sc then 1 else 0

/-- The scoreboard table: `result[group_id][task_id]`, embedded as an
association list of association lists (Python dicts keep insertion order). -/
abbrev Table := List (Int × List (String × Int))

/-- The initial table of `get_scoreboard` (db.py line 262):
`{i: {task['task_id']: 0 for task in tasks} for i in range(1, 10)}`. -/
def initTable (catalog : List Task) : Table :=
  (List.range' 1 9).map
    (fun i : Nat => ((i : Int), catalog.map (fun tk => (tk.task_id, 0))))

/-- Python dict assignment `inner[t] = v`: overwrite in place when the key
exists, append otherwise. -/
def setInner (m : List (String × Int)) (t : String) (v : Int) : List (String × Int) :=
  if m.any (fun q => q.1 = t) then m.map (fun q => if q.1 = t then (q.1, v) else q)
  else m ++ [(t, v)]

/-- Processing one aggregated row in the `get_scoreboard` loop (db.py lines
263-271): look the task up, compute the status, then execute
`table[group_id][task_id] = status`, which raises `KeyError` when `group_id`
is not a key of the outer dict. -/
def processRow (catalog : List Task) (table : Table) (row : Int × String × Nat × Nat) :
    Except ScoreErr Table :=
  match get_task_by_id catalog row.2.1 with
  | none => .error (.typeError row.2.1)
  | some task =>
    if table.any (fun p => p.1 = row.1) then
      .ok (table.map (fun p =>
        if p.1 = row.1 then
          (p.1, setInner p.2 row.2.1 (rowStatus task row.2.2.1 row.2.2.2))
        else p))
    else .error (.keyError row.1)

/-- The `for row in rows` loop of `get_scoreboard`, stopping at the first
uncaught exception. -/
def processRows (catalog : List Task) :
    List (Int × String × Nat × Nat) → Table → Except ScoreErr Table
  | [], table => .ok table
  | r :: rs, table =>
    match processRow catalog table r with
    | .error e => .error e
    | .ok t2 => processRows catalog rs t2

/-- Embedding of `get_scoreboard()` (db.py lines 231-276). -/
def get_scoreboard (catalog : List Task) (subs : List Submission) :
    Except ScoreErr Table :=
  processRows catalog (groupedRows subs) (initTable catalog)

/-- `result[g][t]` read off the embedded table. -/
def tableStatus (table : Table) (g : Int) (t : String) : Option Int :=
  (table.find? (fun p => p.1 = g)).bind
    (fun p => (p.2.find? (fun q => q.1 = t)).map Prod.snd)

/-- The state transition of one `use_point_code` call (result discarded). -/
def useStep (c : String) (g : Int) (st : PCStore) : PCStore :=
  (use_point_code st c g).2

/-! ## Lemmas about the point-code store -/

theorem updateCode_code (c : String) (v : Int) (r : PointCodeRow) :
    (updateCode c v r).code = r.code := by
  unfold updateCode
  split <;> rfl

theorem find?_code_map_update (st : PCStore) (c c2 : String) (v : Int) :
    (st.map (updateCode c2 v)).find? (fun r => r.code = c) =
      (st.find? (fun r => r.code = c)).map (updateCode c2 v) := by
  rw [List.find?_map]
  have hp : ((fun r => decide (r.code = c)) ∘ updateCode c2 v) =
      (fun r : PointCodeRow => decide (r.code = c)) := by
    funext r
    simp only [Function.comp_apply, updateCode_code]
  rw [hp]

theorem find?_code_of_find?_cond (st : PCStore) (c : String) (r : PointCodeRow)
    (h : st.find? (fun s => s.code = c ∧ s.used_by = 0) = some r) :
    ∃ r2, st.find? (fun s => s.code = c) = some r2 ∧ r2.code = c := by
  have hmem : r ∈ st := List.mem_of_find?_eq_some h
  have hp : r.code = c := by
    have := List.find?_some h
    simp only [decide_eq_true_eq] at this
    exact this.1
  have hsome : (st.find? (fun s => decide (s.code = c))).isSome = true := by
    rw [List.find?_isSome]
    exact ⟨r, hmem, by simpa using hp⟩
  obtain ⟨r2, hr2⟩ := Option.isSome_iff_exists.mp hsome
  refine ⟨r2, hr2, ?_⟩
  have := List.find?_some hr2
  simpa using this

theorem use_zero_step (st : PCStore) (c : String) (r : PointCodeRow)
    (hf : st.find? (fun s => s.code = c) = some r) (h0 : r.used_by = 0) :
    use_point_code st c 0 = ((some r.point, none), st.map (updateCode c 0)) ∧
    (st.map (updateCode c 0)).find? (fun s => s.code = c) = some r := by
  have hrc : r.code = c := by simpa using List.find?_some hf
  constructor
  · simp only [use_point_code, hf]
    rw [if_neg (by omega)]
  · rw [find?_code_map_update, hf]
    simp only [Option.map_some']
    congr 1
    unfold updateCode
    rw [if_pos hrc]
    cases r with
    | mk code point u => simp_all

/-! ## Claim theorems: the point-code lifecycle -/

/-- C1 counterexample: the claim says that after a successful redemption any
later redemption attempt on the same code fails with "used", but redeeming
with group 0 writes `used_by = 0` back, so a second redemption of the same
code succeeds again and returns the point value. -/
theorem use_point_code_later_attempt_cex :
    (use_point_code [⟨"A", 5, 0⟩] "A" 0).1 = (some 5, none) ∧
    (use_point_code (use_point_code [⟨"A", 5, 0⟩] "A" 0).2 "A" 0).1 = (some 5, none) := by
  decide

/-- C1 (amended with the precondition that the redeeming group id is
positive): for every stored point code, `use_point_code` returns no value and
the error "not exists" when the code is absent; returns no value and the
error "used" leaving the store unchanged when the row's `used_by` is positive
or -1; and when `used_by = 0` it returns the row's point value, sets
`used_by` to the given group, and — the group being positive — every later
redemption attempt on that code fails with "used" and leaves the store
unchanged. -/
theorem use_point_code_spec (st : PCStore) (c : String) (g : Int) :
    ((∀ r ∈ st, r.code ≠ c) → use_point_code st c g = ((none, some "not exists"), st)) ∧
    (∀ r, st.find? (fun s => s.code = c) = some r → (0 < r.used_by ∨ r.used_by = -1) →
      use_point_code st c g = ((none, some "used"), st)) ∧
    (∀ r, st.find? (fun s => s.code = c) = some r → r.used_by = 0 → 1 ≤ g →
      use_point_code st c g = ((some r.point, none), st.map (updateCode c g)) ∧
      ∀ g2, use_point_code (st.map (updateCode c g)) c g2 =
        ((none, some "used"), st.map (updateCode c g))) := by
  refine ⟨?_, ?_, ?_⟩
  · intro h
    have hnone : st.find? (fun s : PointCodeRow => decide (s.code = c)) = none := by
      rw [List.find?_eq_none]
      intro x hx
      simpa using h x hx
    simp only [use_point_code, hnone]
  · intro r hr hcond
    simp only [use_point_code, hr]
    rw [if_pos hcond]
  · intro r hr h0 hg
    have hrc : r.code = c := by simpa using List.find?_some hr
    constructor
    · simp only [use_point_code, hr]
      rw [if_neg (by omega)]
    · intro g2
      have hfind : (st.map (updateCode c g)).find? (fun s => s.code = c) =
          some { r with used_by := g } := by
        rw [find?_code_map_update, hr]
        simp only [Option.map_some']
        congr 1
        unfold updateCode
        rw [if_pos hrc]
      simp only [use_point_code, hfind]
      rw [if_pos (Or.inl (by omega : (0 : Int) < g))]

/-- Witness for the C1 theorem: a fresh code redeemed by group 3 yields its
point value, and a second attempt by group 2 fails with "used". -/
theorem use_point_code_spec_witness :
    use_point_code [⟨"A", 7, 0⟩] "A" 3 =
      ((some 7, none), [PointCodeRow.mk "A" 7 0].map (updateCode "A" 3)) ∧
    use_point_code ([PointCodeRow.mk "A" 7 0].map (updateCode "A" 3)) "A" 2 =
      ((none, some "used"), [PointCodeRow.mk "A" 7 0].map (updateCode "A" 3)) := by
  have h := (use_point_code_spec [⟨"A", 7, 0⟩] "A" 3).2.2 ⟨"A", 7, 0⟩
    (by decide) (by decide) (by decide)
  exact ⟨h.1, h.2 2⟩

/-- C9: with group argument 0 the "redeemed" write stores `used_by = 0` back,
so the code stays unredeemed: every iterated call `use_point_code(code, 0)`
returns the point value again, an unbounded number of times. -/
theorem use_point_code_group_zero_unbounded (st : PCStore) (c : String) (r : PointCodeRow)
    (hf : st.find? (fun s => s.code = c) = some r) (h0 : r.used_by = 0) :
    ∀ n : Nat, (use_point_code ((useStep c 0)^[n] st) c 0).1 = (some r.point, none) ∧
      ((useStep c 0)^[n] st).find? (fun s => s.code = c) = some r := by
  have inv : ∀ n : Nat, ((useStep c 0)^[n] st).find? (fun s => s.code = c) = some r := by
    intro n
    induction n with
    | zero => simpa using hf
    | succ n ih =>
      rw [Function.iterate_succ_apply']
      have step := use_zero_step _ c r ih h0
      simp only [useStep, step.1]
      exact step.2
  intro n
  refine ⟨?_, inv n⟩
  have step := use_zero_step _ c r (inv n) h0
  rw [step.1]

/-- Witness for the C9 theorem: two redemptions with group 0 already done,
the third still returns the point value and the row still shows
`used_by = 0`. -/
theorem use_point_code_group_zero_unbounded_witness :
    (use_point_code ((useStep "B" 0)^[2] [PointCodeRow.mk "B" 4 0]) "B" 0).1 =
      (some 4, none) ∧
    ((useStep "B" 0)^[2] [PointCodeRow.mk "B" 4 0]).find?
      (fun s => s.code = "B") = some ⟨"B", 4, 0⟩ :=
  use_point_code_group_zero_unbounded [⟨"B", 4, 0⟩] "B" ⟨"B", 4, 0⟩
    (by decide) (by decide) 2

/-- C5: `delete_point_code` succeeds exactly when a row with the given code
and `used_by = 0` exists, setting `used_by` to -1; when the filtered lookup
finds nothing it fails with "used" and changes nothing; after a successful
delete every later `use_point_code` on that code fails with "used" and leaves
the store unchanged, so the code is permanently unredeemable. -/
theorem delete_point_code_spec (st : PCStore) (c : String) :
    ((∀ r ∈ st, ¬(r.code = c ∧ r.used_by = 0)) →
      delete_point_code st c = (some "used", st)) ∧
    (∀ r, st.find? (fun s => s.code = c ∧ s.used_by = 0) = some r →
      delete_point_code st c = (none, st.map (updateCode c (-1))) ∧
      ∀ g, use_point_code (st.map (updateCode c (-1))) c g =
        ((none, some "used"), st.map (updateCode c (-1)))) := by
  constructor
  · intro h
    have hnone : st.find? (fun s : PointCodeRow => decide (s.code = c ∧ s.used_by = 0)) =
        none := by
      rw [List.find?_eq_none]
      intro x hx
      simpa using h x hx
    simp only [delete_point_code, hnone]
  · intro r hr
    constructor
    · simp only [delete_point_code, hr]
    · intro g
      obtain ⟨r2, hr2, hr2c⟩ := find?_code_of_find?_cond st c r hr
      have hfind : (st.map (updateCode c (-1))).find? (fun s => s.code = c) =
          some { r2 with used_by := -1 } := by
        rw [find?_code_map_update, hr2]
        simp only [Option.map_some']
        congr 1
        unfold updateCode
        rw [if_pos hr2c]
      simp only [use_point_code, hfind]
      rw [if_pos (Or.inr trivial)]

/-- Witness for the C5 theorem: deleting a fresh code succeeds, and redeeming
it afterwards fails with "used". -/
theorem delete_point_code_spec_witness :
    delete_point_code [PointCodeRow.mk "C" 9 0] "C" =
      (none, [PointCodeRow.mk "C" 9 0].map (updateCode "C" (-1))) ∧
    use_point_code ([PointCodeRow.mk "C" 9 0].map (updateCode "C" (-1))) "C" 5 =
      ((none, some "used"), [PointCodeRow.mk "C" 9 0].map (updateCode "C" (-1))) := by
  have h := (delete_point_code_spec [⟨"C", 9, 0⟩] "C").2 ⟨"C", 9, 0⟩ (by decide)
  exact ⟨h.1, h.2 5⟩

/-- C2: whenever the issuance loop returns a batch, it is exactly `amount`
codes, pairwise distinct, none colliding with a previously stored code, and
the new store is the old one plus one `used_by = 0` row per code carrying the
requested point value; whenever the loop has not yet succeeded (fuel runs out
mid-retry) the store is unchanged — failed batches never persist, and no
uniqueness violation is ever returned (the IntegrityError branch always
retries with fresh codes). -/
theorem gen_point_code_spec (gen : Nat → String) (point : Int) (amount : Nat)
    (fuel k : Nat) (st : PCStore) :
    (∀ codes st2, gen_point_code gen point amount fuel k st = (some codes, st2) →
      codes.length = amount ∧ codes.Nodup ∧ (∀ c ∈ codes, c ∉ codesOf st) ∧
      st2 = st ++ codes.map (fun c => ⟨c, point, 0⟩)) ∧
    (∀ st2, gen_point_code gen point amount fuel k st = (none, st2) → st2 = st) := by
  induction fuel generalizing k with
  | zero =>
    constructor
    · intro codes st2 h
      simp [gen_point_code] at h
    · intro st2 h
      simp only [gen_point_code, Prod.mk.injEq] at h
      exact h.2.symm
  | succ fuel ih =>
    constructor
    · intro codes st2 h
      simp only [gen_point_code] at h
      cases hins : insertBatch st ((List.range amount).map (fun i => (gen (k + i), point))) with
      | some st3 =>
        rw [hins] at h
        simp only [Prod.mk.injEq, Option.some.injEq] at h
        obtain ⟨hcodes, hst⟩ := h
        unfold insertBatch at hins
        split at hins
        case isTrue hcond =>
          simp only [Option.some.injEq] at hins
          subst hcodes
          subst hst
          refine ⟨?_, ?_, ?_, ?_⟩
          · simp
          · exact hcond.1
          · exact hcond.2
          · rw [← hins]
            congr 1
            simp only [List.map_map]
            rfl
        case isFalse => exact absurd hins (by simp)
      | none =>
        rw [hins] at h
        exact ((ih (k + amount)).1 codes st2 h)
    · intro st2 h
      simp only [gen_point_code] at h
      cases hins : insertBatch st ((List.range amount).map (fun i => (gen (k + i), point))) with
      | some st3 =>
        rw [hins] at h
        simp at h
      | none =>
        rw [hins] at h
        exact (ih (k + amount)).2 st2 h

/-- Witness for the C2 theorem: a generator yielding "a" then "b", a batch of
two codes worth 7 points each, inserted into the empty store. -/
theorem gen_point_code_spec_witness :
    (["a", "b"] : List String).length = 2 ∧ (["a", "b"] : List String).Nodup ∧
    (∀ c ∈ (["a", "b"] : List String), c ∉ codesOf []) ∧
    ([⟨"a", 7, 0⟩, ⟨"b", 7, 0⟩] : PCStore) =
      [] ++ (["a", "b"] : List String).map (fun c => ⟨c, 7, 0⟩) :=
  (gen_point_code_spec (fun i => if i = 0 then "a" else "b") 7 2 1 0 []).1
    ["a", "b"] [⟨"a", 7, 0⟩, ⟨"b", 7, 0⟩] (by decide)

/-! ## Lemmas about the submission log -/

theorem successCount_cons (s : Submission) (rest : List Submission) (g : Int) (t : String) :
    successCount (s :: rest) g t =
      (if s.group_id = g ∧ s.task_id = t ∧ s.is_correct = true then 1 else 0) +
        successCount rest g t := by
  simp only [successCount, List.filter_cons]
  by_cases h : s.group_id = g ∧ s.task_id = t ∧ s.is_correct = true
  · simp [h, Nat.add_comm]
  · simp [h]

theorem failCount_cons (s : Submission) (rest : List Submission) (g : Int) (t : String) :
    failCount (s :: rest) g t =
      (if s.group_id = g ∧ s.task_id = t ∧ s.is_correct = false then 1 else 0) +
        failCount rest g t := by
  simp only [failCount, List.filter_cons]
  by_cases h : s.group_id = g ∧ s.task_id = t ∧ s.is_correct = false
  · simp [h, Nat.add_comm]
  · simp [h]

theorem get_submissions_statistics_foldl (g : Int) (t : String) (subs : List Submission) :
    ∀ a b : Nat,
      subs.foldl
        (fun acc s =>
          if s.group_id = g ∧ s.task_id = t then
            (acc.1 + (if s.is_correct then 1 else 0), acc.2 + (if s.is_correct then 0 else 1))
          else acc)
        (a, b) =
      (a + successCount subs g t, b + failCount subs g t) := by
  induction subs with
  | nil =>
    intro a b
    simp [successCount, failCount]
  | cons s rest ih =>
    intro a b
    simp only [List.foldl_cons]
    rw [successCount_cons, failCount_cons]
    by_cases hp : s.group_id = g ∧ s.task_id = t
    · rw [if_pos hp]
      by_cases hc : s.is_correct
      · rw [if_pos hc, if_pos hc, ih]
        have h1 : (s.group_id = g ∧ s.task_id = t ∧ s.is_correct = true) := ⟨hp.1, hp.2, hc⟩
        have h2 : ¬(s.group_id = g ∧ s.task_id = t ∧ s.is_correct = false) := by
          simp [hc]
        rw [if_pos h1, if_neg h2]
        simp only [Prod.mk.injEq]
        omega
      · rw [if_neg hc, if_neg hc, ih]
        have h1 : ¬(s.group_id = g ∧ s.task_id = t ∧ s.is_correct = true) := by
          simp [hc]
        have h2 : (s.group_id = g ∧ s.task_id = t ∧ s.is_correct = false) := by
          simp [hp.1, hp.2, hc]
        rw [if_neg h1, if_pos h2]
        simp only [Prod.mk.injEq]
        omega
    · rw [if_neg hp, ih]
      have h1 : ¬(s.group_id = g ∧ s.task_id = t ∧ s.is_correct = true) := by
        intro h
        exact hp ⟨h.1, h.2.1⟩
      have h2 : ¬(s.group_id = g ∧ s.task_id = t ∧ s.is_correct = false) := by
        intro h
        exact hp ⟨h.1, h.2.1⟩
      rw [if_neg h1, if_neg h2]
      simp

/-- C8: `get_submissions_statistics` returns exactly (number of records of
that (group, task) pair with `is_correct` true, number with `is_correct`
false); when the pair has no records at all, both counts are 0. -/
theorem get_submissions_statistics_spec (subs : List Submission) (g : Int) (t : String) :
    get_submissions_statistics subs g t = (successCount subs g t, failCount subs g t) ∧
    ((∀ s ∈ subs, ¬(s.group_id = g ∧ s.task_id = t)) →
      get_submissions_statistics subs g t = (0, 0)) := by
  have hmain : get_submissions_statistics subs g t =
      (successCount subs g t, failCount subs g t) := by
    unfold get_submissions_statistics
    rw [get_submissions_statistics_foldl g t subs 0 0]
    simp
  refine ⟨hmain, ?_⟩
  intro hno
  rw [hmain]
  have h1 : successCount subs g t = 0 := by
    simp only [successCount, List.length_eq_zero, List.filter_eq_nil_iff]
    intro s hs
    simp only [decide_eq_true_eq, not_and]
    intro hg ht
    exact absurd ⟨hg, ht⟩ (hno s hs)
  have h2 : failCount subs g t = 0 := by
    simp only [failCount, List.length_eq_zero, List.filter_eq_nil_iff]
    intro s hs
    simp only [decide_eq_true_eq, not_and]
    intro hg ht
    exact absurd ⟨hg, ht⟩ (hno s hs)
  rw [h1, h2]

/-- Witness for the C8 theorem: one record of group 2 on task "x"; the stats
of group 1 on task "y" are (0, 0). -/
theorem get_submissions_statistics_spec_witness :
    get_submissions_statistics [⟨2, "x", "pw", true⟩] 1 "y" =
      (successCount [⟨2, "x", "pw", true⟩] 1 "y", failCount [⟨2, "x", "pw", true⟩] 1 "y") ∧
    get_submissions_statistics [⟨2, "x", "pw", true⟩] 1 "y" = (0, 0) :=
  ⟨(get_submissions_statistics_spec [⟨2, "x", "pw", true⟩] 1 "y").1,
   (get_submissions_statistics_spec [⟨2, "x", "pw", true⟩] 1 "y").2 (by decide)⟩

/-! ## Lemmas about the scoreboard derivation -/

theorem any_fst_eq_iff {α β : Type} [DecidableEq α] (m : List (α × β)) (a : α) :
    m.any (fun q => q.1 = a) = true ↔ a ∈ m.map Prod.fst := by
  simp [List.any_eq_true, List.mem_map]

theorem distinctPairs_foldl_mem (p : Int × String) :
    ∀ (subs : List Submission) (acc : List (Int × String)),
      (p ∈ subs.foldl
        (fun acc s =>
          if (s.group_id, s.task_id) ∈ acc then acc else acc ++ [(s.group_id, s.task_id)])
        acc) ↔
      p ∈ acc ∨ ∃ s ∈ subs, (s.group_id, s.task_id) = p := by
  intro subs
  induction subs with
  | nil => simp
  | cons s rest ih =>
    intro acc
    simp only [List.foldl_cons]
    by_cases hmem : (s.group_id, s.task_id) ∈ acc
    · rw [if_pos hmem, ih]
      constructor
      · rintro (h | ⟨s2, hs2, he⟩)
        · exact Or.inl h
        · exact Or.inr ⟨s2, List.mem_cons_of_mem s hs2, he⟩
      · rintro (h | ⟨s2, hs2, he⟩)
        · exact Or.inl h
        · rcases List.mem_cons.mp hs2 with h2 | h2
          · subst h2
            exact Or.inl (he ▸ hmem)
          · exact Or.inr ⟨s2, h2, he⟩
    · rw [if_neg hmem, ih]
      constructor
      · rintro (h | ⟨s2, hs2, he⟩)
        · rcases List.mem_append.mp h with h2 | h2
          · exact Or.inl h2
          · have hp : p = (s.group_id, s.task_id) := List.mem_singleton.mp h2
            exact Or.inr ⟨s, List.mem_cons_self s rest, hp.symm⟩
        · exact Or.inr ⟨s2, List.mem_cons_of_mem s hs2, he⟩
      · rintro (h | ⟨s2, hs2, he⟩)
        · exact Or.inl (List.mem_append.mpr (Or.inl h))
        · rcases List.mem_cons.mp hs2 with h2 | h2
          · subst h2
            exact Or.inl (List.mem_append.mpr (Or.inr (List.mem_singleton.mpr he.symm)))
          · exact Or.inr ⟨s2, h2, he⟩

theorem mem_distinctPairs (subs : List Submission) (p : Int × String) :
    p ∈ distinctPairs subs ↔ ∃ s ∈ subs, (s.group_id, s.task_id) = p := by
  unfold distinctPairs
  rw [distinctPairs_foldl_mem]
  simp

theorem distinctPairs_foldl_nodup :
    ∀ (subs : List Submission) (acc : List (Int × String)), acc.Nodup →
      (subs.foldl
        (fun acc s =>
          if (s.group_id, s.task_id) ∈ acc then acc else acc ++ [(s.group_id, s.task_id)])
        acc).Nodup := by
  intro subs
  induction subs with
  | nil => intro acc h; simpa using h
  | cons s rest ih =>
    intro acc hacc
    simp only [List.foldl_cons]
    by_cases hmem : (s.group_id, s.task_id) ∈ acc
    · rw [if_pos hmem]
      exact ih acc hacc
    · rw [if_neg hmem]
      refine ih _ ?_
      simp [List.nodup_append, hacc, hmem]

theorem nodup_distinctPairs (subs : List Submission) : (distinctPairs subs).Nodup :=
  distinctPairs_foldl_nodup subs [] List.nodup_nil

theorem groupedRows_pairs (subs : List Submission) :
    (groupedRows subs).map (fun r => (r.1, r.2.1)) = distinctPairs subs := by
  unfold groupedRows
  rw [List.map_map]
  have : ((fun r : Int × String × Nat × Nat => (r.1, r.2.1)) ∘
      (fun p : Int × String => (p.1, p.2, successCount subs p.1 p.2, failCount subs p.1 p.2))) =
      id := by
    funext p
    rfl
  rw [this, List.map_id]

theorem mem_groupedRows_of_pair (subs : List Submission) (g : Int) (t : String)
    (h : (g, t) ∈ distinctPairs subs) :
    (g, t, successCount subs g t, failCount subs g t) ∈ groupedRows subs := by
  unfold groupedRows
  exact List.mem_map.mpr ⟨(g, t), h, rfl⟩

theorem groupedRows_from_sub (subs : List Submission) (r : Int × String × Nat × Nat)
    (h : r ∈ groupedRows subs) :
    ∃ s ∈ subs, s.group_id = r.1 ∧ s.task_id = r.2.1 := by
  unfold groupedRows at h
  obtain ⟨p, hp, he⟩ := List.mem_map.mp h
  obtain ⟨s, hs, hsp⟩ := (mem_distinctPairs subs p).mp hp
  refine ⟨s, hs, ?_, ?_⟩
  · rw [← he, ← hsp]
  · rw [← he, ← hsp]

theorem setInner_find?_self (m : List (String × Int)) (t : String) (v : Int) :
    (setInner m t v).find? (fun q => q.1 = t) = some (t, v) := by
  unfold setInner
  by_cases h : m.any (fun q => q.1 = t)
  · rw [if_pos h]
    rw [List.find?_map]
    have hpf : ((fun q : String × Int => decide (q.1 = t)) ∘
        (fun q : String × Int => if q.1 = t then (q.1, v) else q)) =
        (fun q : String × Int => decide (q.1 = t)) := by
      funext q
      by_cases hq : q.1 = t <;> simp [hq]
    rw [hpf]
    have hsome : (m.find? (fun q : String × Int => decide (q.1 = t))).isSome = true := by
      rw [List.find?_isSome]
      obtain ⟨q, hq, hqt⟩ := List.any_eq_true.mp h
      exact ⟨q, hq, hqt⟩
    obtain ⟨q0, hq0⟩ := Option.isSome_iff_exists.mp hsome
    have hq0t : q0.1 = t := by simpa using List.find?_some hq0
    rw [hq0]
    simp [hq0t]
  · rw [if_neg h]
    rw [List.find?_append]
    have hnone : m.find? (fun q : String × Int => decide (q.1 = t)) = none := by
      rw [List.find?_eq_none]
      intro x hx
      simp only [decide_eq_true_eq]
      intro hxt
      exact h (List.any_eq_true.mpr ⟨x, hx, by simpa using hxt⟩)
    rw [hnone]
    simp

theorem setInner_find?_other (m : List (String × Int)) (t t2 : String) (v : Int)
    (hne : t2 ≠ t) :
    (setInner m t v).find? (fun q => q.1 = t2) = m.find? (fun q => q.1 = t2) := by
  unfold setInner
  by_cases h : m.any (fun q => q.1 = t)
  · rw [if_pos h]
    rw [List.find?_map]
    have hpf : ((fun q : String × Int => decide (q.1 = t2)) ∘
        (fun q : String × Int => if q.1 = t then (q.1, v) else q)) =
        (fun q : String × Int => decide (q.1 = t2)) := by
      funext q
      by_cases hq : q.1 = t <;> simp [hq]
    rw [hpf]
    cases hf : m.find? (fun q : String × Int => decide (q.1 = t2)) with
    | none => rfl
    | some q0 =>
      have hq0 : q0.1 = t2 := by simpa using List.find?_some hf
      simp only [Option.map_some']
      congr 1
      rw [if_neg (by rw [hq0]; exact hne)]
  · rw [if_neg h]
    rw [List.find?_append]
    have : List.find? (fun q : String × Int => decide (q.1 = t2)) [(t, v)] = none := by
      simp [Ne.symm hne]
    rw [this]
    simp

theorem setInner_keys (m : List (String × Int)) (t : String) (v : Int)
    (h : t ∈ m.map Prod.fst) :
    (setInner m t v).map Prod.fst = m.map Prod.fst := by
  unfold setInner
  rw [if_pos ((any_fst_eq_iff m t).mpr h)]
  rw [List.map_map]
  congr 1
  funext q
  by_cases hq : q.1 = t <;> simp [hq]

theorem processRow_ok_destruct (catalog : List Task) (table : Table)
    (r : Int × String × Nat × Nat) (t2 : Table)
    (h : processRow catalog table r = .ok t2) :
    ∃ task, get_task_by_id catalog r.2.1 = some task ∧
      r.1 ∈ table.map Prod.fst ∧
      t2 = table.map (fun p =>
        if p.1 = r.1 then (p.1, setInner p.2 r.2.1 (rowStatus task r.2.2.1 r.2.2.2))
        else p) := by
  cases hk : get_task_by_id catalog r.2.1 with
  | none =>
    simp only [processRow, hk] at h
    exact Except.noConfusion h
  | some task =>
    simp only [processRow, hk] at h
    by_cases hany : table.any (fun p => p.1 = r.1) = true
    · rw [if_pos hany] at h
      simp only [Except.ok.injEq] at h
      exact ⟨task, rfl, (any_fst_eq_iff table r.1).mp hany, h.symm⟩
    · rw [if_neg hany] at h
      simp at h

theorem processRow_error_destruct (catalog : List Task) (table : Table)
    (r : Int × String × Nat × Nat) (e : ScoreErr)
    (h : processRow catalog table r = .error e) :
    (e = .typeError r.2.1 ∧ get_task_by_id catalog r.2.1 = none) ∨
    (e = .keyError r.1 ∧ r.1 ∉ table.map Prod.fst) := by
  cases hk : get_task_by_id catalog r.2.1 with
  | none =>
    simp only [processRow, hk, Except.error.injEq] at h
    exact Or.inl ⟨h.symm, rfl⟩
  | some task =>
    simp only [processRow, hk] at h
    by_cases hany : table.any (fun p => p.1 = r.1) = true
    · rw [if_pos hany] at h
      simp at h
    · rw [if_neg hany] at h
      simp only [Except.error.injEq] at h
      refine Or.inr ⟨h.symm, ?_⟩
      intro hmem
      exact hany ((any_fst_eq_iff table r.1).mpr hmem)

theorem processRow_ok_keys (catalog : List Task) (table : Table)
    (r : Int × String × Nat × Nat) (t2 : Table)
    (h : processRow catalog table r = .ok t2) :
    t2.map Prod.fst = table.map Prod.fst := by
  obtain ⟨task, hk, hmem, ht2⟩ := processRow_ok_destruct catalog table r t2 h
  subst ht2
  rw [List.map_map]
  congr 1
  funext p
  by_cases hp : p.1 = r.1 <;> simp [hp]

theorem processRow_ok_tableStatus_self (catalog : List Task) (table : Table)
    (r : Int × String × Nat × Nat) (t2 : Table)
    (h : processRow catalog table r = .ok t2) :
    ∃ task, get_task_by_id catalog r.2.1 = some task ∧
      tableStatus t2 r.1 r.2.1 = some (rowStatus task r.2.2.1 r.2.2.2) := by
  obtain ⟨task, hk, hmem, ht2⟩ := processRow_ok_destruct catalog table r t2 h
  refine ⟨task, hk, ?_⟩
  subst ht2
  unfold tableStatus
  rw [List.find?_map]
  have hpf : ((fun p : Int × List (String × Int) => decide (p.1 = r.1)) ∘
      (fun p : Int × List (String × Int) =>
        if p.1 = r.1 then (p.1, setInner p.2 r.2.1 (rowStatus task r.2.2.1 r.2.2.2))
        else p)) =
      (fun p : Int × List (String × Int) => decide (p.1 = r.1)) := by
    funext p
    by_cases hp : p.1 = r.1 <;> simp [hp]
  rw [hpf]
  have hsome : (table.find? (fun p : Int × List (String × Int) =>
      decide (p.1 = r.1))).isSome = true := by
    rw [List.find?_isSome]
    obtain ⟨p, hp, hfst⟩ := List.mem_map.mp hmem
    exact ⟨p, hp, by simpa using hfst⟩
  obtain ⟨p0, hp0⟩ := Option.isSome_iff_exists.mp hsome
  have hp01 : p0.1 = r.1 := by simpa using List.find?_some hp0
  rw [hp0]
  simp only [Option.map_some', if_pos hp01, Option.some_bind]
  rw [setInner_find?_self]
  rfl

theorem processRow_ok_tableStatus_other (catalog : List Task) (table : Table)
    (r : Int × String × Nat × Nat) (t2 : Table)
    (h : processRow catalog table r = .ok t2) (g : Int) (t : String)
    (hne : ¬(g = r.1 ∧ t = r.2.1)) :
    tableStatus t2 g t = tableStatus table g t := by
  obtain ⟨task, hk, hmem, ht2⟩ := processRow_ok_destruct catalog table r t2 h
  subst ht2
  unfold tableStatus
  rw [List.find?_map]
  have hpf : ((fun p : Int × List (String × Int) => decide (p.1 = g)) ∘
      (fun p : Int × List (String × Int) =>
        if p.1 = r.1 then (p.1, setInner p.2 r.2.1 (rowStatus task r.2.2.1 r.2.2.2))
        else p)) =
      (fun p : Int × List (String × Int) => decide (p.1 = g)) := by
    funext p
    by_cases hp : p.1 = r.1 <;> simp [hp]
  rw [hpf]
  cases hf : table.find? (fun p : Int × List (String × Int) => decide (p.1 = g)) with
  | none => rfl
  | some p0 =>
    have hp01 : p0.1 = g := by simpa using List.find?_some hf
    simp only [Option.map_some', Option.some_bind]
    by_cases hpr : p0.1 = r.1
    · have hg : g = r.1 := by rw [← hp01, hpr]
      have ht : t ≠ r.2.1 := fun hteq => hne ⟨hg, hteq⟩
      simp only [if_pos hpr]
      rw [setInner_find?_other _ _ _ _ ht]
    · simp only [if_neg hpr]

theorem processRows_ok_keys (catalog : List Task) :
    ∀ (rows : List (Int × String × Nat × Nat)) (table table2 : Table),
      processRows catalog rows table = .ok table2 →
      table2.map Prod.fst = table.map Prod.fst := by
  intro rows
  induction rows with
  | nil =>
    intro table table2 h
    simp only [processRows, Except.ok.injEq] at h
    rw [h]
  | cons r rs ih =>
    intro table table2 h
    simp only [processRows] at h
    cases hr : processRow catalog table r with
    | error e => rw [hr] at h; simp at h
    | ok t1 =>
      rw [hr] at h
      rw [ih t1 table2 h]
      exact processRow_ok_keys catalog table r t1 hr

theorem processRows_untouched (catalog : List Task) (g : Int) (t : String) :
    ∀ (rows : List (Int × String × Nat × Nat)) (table table2 : Table),
      (∀ r ∈ rows, ¬(g = r.1 ∧ t = r.2.1)) →
      processRows catalog rows table = .ok table2 →
      tableStatus table2 g t = tableStatus table g t := by
  intro rows
  induction rows with
  | nil =>
    intro table table2 _ h
    simp only [processRows, Except.ok.injEq] at h
    rw [h]
  | cons r rs ih =>
    intro table table2 hno h
    simp only [processRows] at h
    cases hr : processRow catalog table r with
    | error e => rw [hr] at h; simp at h
    | ok t1 =>
      rw [hr] at h
      rw [ih t1 table2 (fun r2 hr2 => hno r2 (List.mem_cons_of_mem r hr2)) h]
      exact processRow_ok_tableStatus_other catalog table r t1 hr g t
        (hno r (List.mem_cons_self r rs))

theorem processRows_set (catalog : List Task) (r : Int × String × Nat × Nat) :
    ∀ (rows : List (Int × String × Nat × Nat)) (table table2 : Table),
      (rows.map (fun r2 => (r2.1, r2.2.1))).Nodup →
      r ∈ rows →
      processRows catalog rows table = .ok table2 →
      ∃ task, get_task_by_id catalog r.2.1 = some task ∧
        tableStatus table2 r.1 r.2.1 = some (rowStatus task r.2.2.1 r.2.2.2) := by
  intro rows
  induction rows with
  | nil =>
    intro table table2 _ hmem
    exact absurd hmem (List.not_mem_nil r)
  | cons r0 rs ih =>
    intro table table2 hnd hmem h
    simp only [processRows] at h
    cases hr : processRow catalog table r0 with
    | error e => rw [hr] at h; simp at h
    | ok t1 =>
      rw [hr] at h
      rw [List.map_cons] at hnd
      have hnd2 := List.nodup_cons.mp hnd
      rcases List.mem_cons.mp hmem with heq | hmem2
      · subst heq
        obtain ⟨task, hk, hset⟩ := processRow_ok_tableStatus_self catalog table r t1 hr
        refine ⟨task, hk, ?_⟩
        have hno : ∀ r2 ∈ rs, ¬(r.1 = r2.1 ∧ r.2.1 = r2.2.1) := by
          intro r2 hr2 hcontra
          have hpair : (r.1, r.2.1) ∈ rs.map (fun r3 => (r3.1, r3.2.1)) := by
            rw [hcontra.1, hcontra.2]
            exact List.mem_map.mpr ⟨r2, hr2, rfl⟩
          exact hnd2.1 hpair
        rw [processRows_untouched catalog r.1 r.2.1 rs t1 table2 hno h]
        exact hset
      · exact ih t1 table2 hnd2.2 hmem2 h

theorem processRows_ok_requires (catalog : List Task) :
    ∀ (rows : List (Int × String × Nat × Nat)) (table table2 : Table),
      processRows catalog rows table = .ok table2 →
      ∀ r ∈ rows, (get_task_by_id catalog r.2.1).isSome = true ∧
        r.1 ∈ table.map Prod.fst := by
  intro rows
  induction rows with
  | nil =>
    intro table table2 _ r hmem
    exact absurd hmem (List.not_mem_nil r)
  | cons r0 rs ih =>
    intro table table2 h r hmem
    simp only [processRows] at h
    cases hr : processRow catalog table r0 with
    | error e => rw [hr] at h; simp at h
    | ok t1 =>
      rw [hr] at h
      rcases List.mem_cons.mp hmem with heq | hmem2
      · subst heq
        obtain ⟨task, hk, hkey, _⟩ := processRow_ok_destruct catalog table r t1 hr
        exact ⟨by rw [hk]; rfl, hkey⟩
      · have := ih t1 table2 h r hmem2
        rwa [processRow_ok_keys catalog table r0 t1 hr] at this

theorem processRows_error_destruct (catalog : List Task) :
    ∀ (rows : List (Int × String × Nat × Nat)) (table : Table) (e : ScoreErr),
      processRows catalog rows table = .error e →
      ∃ r ∈ rows,
        (e = .typeError r.2.1 ∧ get_task_by_id catalog r.2.1 = none) ∨
        (e = .keyError r.1 ∧ r.1 ∉ table.map Prod.fst) := by
  intro rows
  induction rows with
  | nil =>
    intro table e h
    simp [processRows] at h
  | cons r0 rs ih =>
    intro table e h
    simp only [processRows] at h
    cases hr : processRow catalog table r0 with
    | error e2 =>
      rw [hr] at h
      simp only [Except.error.injEq] at h
      subst h
      exact ⟨r0, List.mem_cons_self r0 rs,
        processRow_error_destruct catalog table r0 e2 hr⟩
    | ok t1 =>
      rw [hr] at h
      obtain ⟨r, hmem, hcase⟩ := ih t1 e h
      refine ⟨r, List.mem_cons_of_mem r0 hmem, ?_⟩
      rwa [processRow_ok_keys catalog table r0 t1 hr] at hcase

theorem processRow_ok_inner_keys (catalog : List Task) (table : Table)
    (r : Int × String × Nat × Nat) (t2 : Table)
    (h : processRow catalog table r = .ok t2)
    (hinv : ∀ p ∈ table, p.2.map Prod.fst = catalog.map Task.task_id) :
    ∀ p ∈ t2, p.2.map Prod.fst = catalog.map Task.task_id := by
  obtain ⟨task, hk, hmem, ht2⟩ := processRow_ok_destruct catalog table r t2 h
  subst ht2
  intro p hp
  obtain ⟨p0, hp0, hpe⟩ := List.mem_map.mp hp
  by_cases hpr : p0.1 = r.1
  · rw [← hpe]
    simp only [if_pos hpr]
    have htask_mem : task ∈ catalog := List.mem_of_find?_eq_some hk
    have htask_id : task.task_id = r.2.1 := by simpa using List.find?_some hk
    have hid_mem : r.2.1 ∈ p0.2.map Prod.fst := by
      rw [hinv p0 hp0]
      exact List.mem_map.mpr ⟨task, htask_mem, htask_id⟩
    rw [setInner_keys _ _ _ hid_mem]
    exact hinv p0 hp0
  · rw [← hpe]
    simp only [if_neg hpr]
    exact hinv p0 hp0

theorem processRows_inner_keys (catalog : List Task) :
    ∀ (rows : List (Int × String × Nat × Nat)) (table table2 : Table),
      processRows catalog rows table = .ok table2 →
      (∀ p ∈ table, p.2.map Prod.fst = catalog.map Task.task_id) →
      ∀ p ∈ table2, p.2.map Prod.fst = catalog.map Task.task_id := by
  intro rows
  induction rows with
  | nil =>
    intro table table2 h hinv
    simp only [processRows, Except.ok.injEq] at h
    rw [← h]
    exact hinv
  | cons r rs ih =>
    intro table table2 h hinv
    simp only [processRows] at h
    cases hr : processRow catalog table r with
    | error e => rw [hr] at h; simp at h
    | ok t1 =>
      rw [hr] at h
      exact ih t1 table2 h (processRow_ok_inner_keys catalog table r t1 hr hinv)

theorem initTable_keys (catalog : List Task) :
    (initTable catalog).map Prod.fst = (List.range' 1 9).map (fun i : Nat => (i : Int)) := by
  unfold initTable
  rw [List.map_map]
  rfl

theorem mem_intKeys_iff (g : Int) :
    g ∈ (List.range' 1 9).map (fun i : Nat => (i : Int)) ↔ 1 ≤ g ∧ g ≤ 9 := by
  rw [List.mem_map]
  constructor
  · rintro ⟨i, hi, he⟩
    rw [List.mem_range'_1] at hi
    omega
  · rintro ⟨h1, h9⟩
    refine ⟨g.toNat, ?_, by omega⟩
    rw [List.mem_range'_1]
    omega

theorem find?_map_intPair {β : Type} (l : List Nat) (inner : β) (g : Int) :
    (l.map (fun i : Nat => ((i : Int), inner))).find? (fun p => p.1 = g) =
      (l.find? (fun i : Nat => (i : Int) = g)).map (fun i : Nat => ((i : Int), inner)) := by
  induction l with
  | nil => rfl
  | cons a l ih =>
    by_cases ha : (a : Int) = g
    · rw [List.map_cons, List.find?_cons_of_pos _ (by simpa using ha),
        List.find?_cons_of_pos _ (by simpa using ha)]
      rfl
    · rw [List.map_cons, List.find?_cons_of_neg _ (by simpa using ha),
        List.find?_cons_of_neg _ (by simpa using ha)]
      exact ih

theorem find?_initTable (catalog : List Task) (g : Int) (h1 : 1 ≤ g) (h9 : g ≤ 9) :
    (initTable catalog).find? (fun p => p.1 = g) =
      some (g, catalog.map (fun tk => (tk.task_id, 0))) := by
  unfold initTable
  rw [find?_map_intPair]
  have hsome : ((List.range' 1 9).find?
      (fun i : Nat => decide ((i : Int) = g))).isSome = true := by
    rw [List.find?_isSome]
    refine ⟨g.toNat, ?_, by simp; omega⟩
    rw [List.mem_range'_1]
    omega
  obtain ⟨i0, hi0⟩ := Option.isSome_iff_exists.mp hsome
  have hi0g : (i0 : Int) = g := by simpa using List.find?_some hi0
  rw [hi0]
  simp [hi0g]

theorem tableStatus_initTable (catalog : List Task) (g : Int) (h1 : 1 ≤ g) (h9 : g ≤ 9)
    (tk : Task) (htk : tk ∈ catalog) :
    tableStatus (initTable catalog) g tk.task_id = some 0 := by
  unfold tableStatus
  rw [find?_initTable catalog g h1 h9]
  simp only [Option.some_bind]
  have hsome : ((catalog.map (fun tk2 => (tk2.task_id, (0 : Int)))).find?
      (fun q => decide (q.1 = tk.task_id))).isSome = true := by
    rw [List.find?_isSome]
    exact ⟨(tk.task_id, 0), List.mem_map.mpr ⟨tk, htk, rfl⟩, by simp⟩
  obtain ⟨q0, hq0⟩ := Option.isSome_iff_exists.mp hsome
  have hq0mem := List.mem_of_find?_eq_some hq0
  obtain ⟨tk2, _, hq0eq⟩ := List.mem_map.mp hq0mem
  rw [hq0]
  rw [← hq0eq]
  rfl

theorem get_task_by_id_of_mem (catalog : List Task)
    (hnd : (catalog.map Task.task_id).Nodup) (tk : Task) (htk : tk ∈ catalog) :
    get_task_by_id catalog tk.task_id = some tk := by
  unfold get_task_by_id
  induction catalog with
  | nil => exact absurd htk (List.not_mem_nil tk)
  | cons h rest ih =>
    rw [List.map_cons] at hnd
    have hnd2 := List.nodup_cons.mp hnd
    rcases List.mem_cons.mp htk with heq | hmem
    · subst heq
      exact List.find?_cons_of_pos _ (by simp)
    · have hne : h.task_id ≠ tk.task_id := by
        intro he
        exact hnd2.1 (he ▸ List.mem_map.mpr ⟨tk, hmem, rfl⟩)
      rw [List.find?_cons_of_neg _ (by simp [hne])]
      exact ih hnd2.2 hmem

theorem successCount_eq_zero (subs : List Submission) (g : Int) (t : String)
    (h : ∀ s ∈ subs, ¬(s.group_id = g ∧ s.task_id = t)) : successCount subs g t = 0 := by
  simp only [successCount, List.length_eq_zero, List.filter_eq_nil_iff]
  intro s hs
  simp only [decide_eq_true_eq, not_and]
  intro hg ht
  exact absurd ⟨hg, ht⟩ (h s hs)

theorem failCount_eq_zero (subs : List Submission) (g : Int) (t : String)
    (h : ∀ s ∈ subs, ¬(s.group_id = g ∧ s.task_id = t)) : failCount subs g t = 0 := by
  simp only [failCount, List.length_eq_zero, List.filter_eq_nil_iff]
  intro s hs
  simp only [decide_eq_true_eq, not_and]
  intro hg ht
  exact absurd ⟨hg, ht⟩ (h s hs)

theorem counts_zero_of_not_pair (subs : List Submission) (g : Int) (t : String)
    (h : (g, t) ∉ distinctPairs subs) :
    successCount subs g t = 0 ∧ failCount subs g t = 0 := by
  have hno : ∀ s ∈ subs, ¬(s.group_id = g ∧ s.task_id = t) := by
    intro s hs hcontra
    exact h ((mem_distinctPairs subs (g, t)).mpr ⟨s, hs, by rw [hcontra.1, hcontra.2]⟩)
  exact ⟨successCount_eq_zero subs g t hno, failCount_eq_zero subs g t hno⟩

theorem rowStatus_zero (tk : Task) (hpos : ∀ m, tk.max_attempt = some m → 1 ≤ m) :
    rowStatus tk 0 0 = 0 := by
  cases hm : tk.max_attempt with
  | none => simp [rowStatus, hm]
  | some m =>
    have := hpos m hm
    simp only [rowStatus, hm]
    rw [if_neg (by omega)]
    rfl

/-! ## Claim theorems: the scoreboard -/

/-- C3 counterexample: with a catalog task whose `max_attempt` is 0 and no
submissions at all, group 1 has fail count 0 ≥ 0 = max_attempt, so the
claim's rule demands Exhausted (-1); but the scoreboard loop only runs over
(group, task) pairs that have at least one submission row, so the entry keeps
its initial value 0. -/
theorem get_scoreboard_exhausted_cex :
    get_scoreboard [⟨"t", some 0⟩] [] = .ok (initTable [⟨"t", some 0⟩]) ∧
    tableStatus (initTable [⟨"t", some 0⟩]) 1 "t" = some 0 ∧
    rowStatus ⟨"t", some 0⟩ (successCount [] 1 "t") (failCount [] 1 "t") = -1 :=
  ⟨rfl, by decide, rfl⟩

/-- C3 (amended with the precondition that every `max_attempt` defined in the
catalog is at least 1): for every group 1..9 and every catalog task, the
matrix entry of `get_scoreboard` is Exhausted (-1) when the task defines
`max_attempt` and the group's fail count reaches it — even when the success
count is positive — otherwise Solved (1) when the success count is positive,
otherwise Unsolved (0), the counts being taken over all submission records of
that exact (group, task) pair. -/
theorem get_scoreboard_status (catalog : List Task) (subs : List Submission)
    (hnd : (catalog.map Task.task_id).Nodup)
    (hpos : ∀ tk ∈ catalog, ∀ m, tk.max_attempt = some m → 1 ≤ m)
    (g : Int) (hg1 : 1 ≤ g) (hg9 : g ≤ 9) (tk : Task) (htk : tk ∈ catalog)
    (table : Table) (hok : get_scoreboard catalog subs = .ok table) :
    tableStatus table g tk.task_id =
      some (rowStatus tk (successCount subs g tk.task_id) (failCount subs g tk.task_id)) := by
  unfold get_scoreboard at hok
  by_cases hpair : (g, tk.task_id) ∈ distinctPairs subs
  · have hrow := mem_groupedRows_of_pair subs g tk.task_id hpair
    have hnd_rows : ((groupedRows subs).map (fun r => (r.1, r.2.1))).Nodup := by
      rw [groupedRows_pairs]
      exact nodup_distinctPairs subs
    obtain ⟨task, hk, hset⟩ := processRows_set catalog
      (g, tk.task_id, successCount subs g tk.task_id, failCount subs g tk.task_id)
      (groupedRows subs) (initTable catalog) table hnd_rows hrow hok
    have hk2 : get_task_by_id catalog tk.task_id = some tk :=
      get_task_by_id_of_mem catalog hnd tk htk
    rw [hk2] at hk
    simp only [Option.some.injEq] at hk
    rw [← hk] at hset
    exact hset
  · have hno : ∀ r ∈ groupedRows subs, ¬(g = r.1 ∧ tk.task_id = r.2.1) := by
      intro r hr hcontra
      have hmem : (r.1, r.2.1) ∈ distinctPairs subs := by
        rw [← groupedRows_pairs subs]
        exact List.mem_map.mpr ⟨r, hr, rfl⟩
      rw [← hcontra.1, ← hcontra.2] at hmem
      exact hpair hmem
    rw [processRows_untouched catalog g tk.task_id (groupedRows subs)
      (initTable catalog) table hno hok]
    obtain ⟨hsc, hfc⟩ := counts_zero_of_not_pair subs g tk.task_id hpair
    rw [hsc, hfc, rowStatus_zero tk (hpos tk htk)]
    exact tableStatus_initTable catalog g hg1 hg9 tk htk

/-- Witness for the C3 theorem: one task "t1" with max_attempt 2, no
submissions; group 1's entry is the status computed by the rule at counts
(0, 0). -/
theorem get_scoreboard_status_witness :
    tableStatus (initTable [⟨"t1", some 2⟩]) 1 (Task.mk "t1" (some 2)).task_id =
      some (rowStatus ⟨"t1", some 2⟩ (successCount [] 1 (Task.mk "t1" (some 2)).task_id)
        (failCount [] 1 (Task.mk "t1" (some 2)).task_id)) :=
  get_scoreboard_status [⟨"t1", some 2⟩] [] (by decide)
    (by
      intro tk htk m hm
      rw [List.mem_singleton] at htk
      subst htk
      simp only [Option.some.injEq] at hm
      omega)
    1 (by decide) (by decide) ⟨"t1", some 2⟩ (by decide)
    (initTable [⟨"t1", some 2⟩]) rfl

/-- C6: every successfully returned scoreboard has outer keys exactly the
groups 1..9 and, for each group, inner keys exactly the catalog's task ids in
catalog order — so every (group 1..9, catalog task) pair carries a status and
a task outside the catalog never appears, whatever the submission records
were. -/
theorem get_scoreboard_complete (catalog : List Task) (subs : List Submission)
    (table : Table) (hok : get_scoreboard catalog subs = .ok table) :
    table.map Prod.fst = (List.range' 1 9).map (fun i : Nat => (i : Int)) ∧
    (∀ p ∈ table, p.2.map Prod.fst = catalog.map Task.task_id) ∧
    ∀ g : Int, 1 ≤ g → g ≤ 9 → ∀ tk ∈ catalog, ∃ v, tableStatus table g tk.task_id = some v := by
  unfold get_scoreboard at hok
  have hkeys : table.map Prod.fst = (List.range' 1 9).map (fun i : Nat => (i : Int)) := by
    rw [processRows_ok_keys catalog (groupedRows subs) (initTable catalog) table hok]
    exact initTable_keys catalog
  have hinner : ∀ p ∈ table, p.2.map Prod.fst = catalog.map Task.task_id := by
    refine processRows_inner_keys catalog (groupedRows subs) (initTable catalog) table hok ?_
    intro p hp
    obtain ⟨i, _, he⟩ := List.mem_map.mp hp
    rw [← he, List.map_map]
    rfl
  refine ⟨hkeys, hinner, ?_⟩
  intro g hg1 hg9 tk htk
  have hgmem : g ∈ table.map Prod.fst := by
    rw [hkeys, mem_intKeys_iff]
    exact ⟨hg1, hg9⟩
  have hsome : (table.find? (fun p : Int × List (String × Int) =>
      decide (p.1 = g))).isSome = true := by
    rw [List.find?_isSome]
    obtain ⟨p, hp, hfst⟩ := List.mem_map.mp hgmem
    exact ⟨p, hp, by simpa using hfst⟩
  obtain ⟨p0, hp0⟩ := Option.isSome_iff_exists.mp hsome
  have hid : tk.task_id ∈ p0.2.map Prod.fst := by
    rw [hinner p0 (List.mem_of_find?_eq_some hp0)]
    exact List.mem_map.mpr ⟨tk, htk, rfl⟩
  have hsome2 : (p0.2.find? (fun q : String × Int =>
      decide (q.1 = tk.task_id))).isSome = true := by
    rw [List.find?_isSome]
    obtain ⟨q, hq, hqfst⟩ := List.mem_map.mp hid
    exact ⟨q, hq, by simpa using hqfst⟩
  obtain ⟨q0, hq0⟩ := Option.isSome_iff_exists.mp hsome2
  refine ⟨q0.2, ?_⟩
  unfold tableStatus
  rw [hp0]
  simp only [Option.some_bind]
  rw [hq0]
  rfl

/-- Witness for the C6 theorem: catalog with one task and no submissions. -/
theorem get_scoreboard_complete_witness :
    (initTable [⟨"t1", none⟩]).map Prod.fst =
      (List.range' 1 9).map (fun i : Nat => (i : Int)) ∧
    (∀ p ∈ initTable [⟨"t1", none⟩],
      p.2.map Prod.fst = List.map Task.task_id [⟨"t1", none⟩]) ∧
    ∀ g : Int, 1 ≤ g → g ≤ 9 → ∀ tk ∈ ([⟨"t1", none⟩] : List Task),
      ∃ v, tableStatus (initTable [⟨"t1", none⟩]) g tk.task_id = some v :=
  get_scoreboard_complete [⟨"t1", none⟩] [] (initTable [⟨"t1", none⟩]) rfl

/-- C10: a submission whose group id lies outside 1..9 makes `get_scoreboard`
raise an uncaught KeyError (provided every referenced task is in the catalog,
so no TypeError fires first), instead of returning a (result, error) pair;
and a submission whose task id the catalog does not know makes it raise an
uncaught exception. -/
theorem get_scoreboard_bad_input (catalog : List Task) (subs : List Submission) :
    ((∀ s ∈ subs, ∃ tk ∈ catalog, tk.task_id = s.task_id) →
      (∃ s ∈ subs, s.group_id < 1 ∨ 9 < s.group_id) →
      ∃ g, get_scoreboard catalog subs = .error (.keyError g) ∧ (g < 1 ∨ 9 < g)) ∧
    ((∃ s ∈ subs, ∀ tk ∈ catalog, tk.task_id ≠ s.task_id) →
      ∃ e, get_scoreboard catalog subs = .error e) := by
  constructor
  · rintro hknown ⟨s, hs, hbad⟩
    have hpair : (s.group_id, s.task_id) ∈ distinctPairs subs :=
      (mem_distinctPairs subs (s.group_id, s.task_id)).mpr ⟨s, hs, rfl⟩
    have hrow := mem_groupedRows_of_pair subs s.group_id s.task_id hpair
    cases hres : processRows catalog (groupedRows subs) (initTable catalog) with
    | ok table =>
      exfalso
      have hreq := (processRows_ok_requires catalog (groupedRows subs)
        (initTable catalog) table hres _ hrow).2
      rw [initTable_keys, mem_intKeys_iff] at hreq
      omega
    | error e =>
      obtain ⟨r, hr, hcase⟩ := processRows_error_destruct catalog (groupedRows subs)
        (initTable catalog) e hres
      rcases hcase with ⟨he, hnone⟩ | ⟨he, hnot⟩
      · exfalso
        obtain ⟨s2, hs2, _, htid⟩ := groupedRows_from_sub subs r hr
        obtain ⟨tk, htk, htkid⟩ := hknown s2 hs2
        unfold get_task_by_id at hnone
        rw [List.find?_eq_none] at hnone
        exact hnone tk htk (by simp [htkid, htid])
      · refine ⟨r.1, ?_, ?_⟩
        · unfold get_scoreboard
          rw [hres, he]
        · rw [initTable_keys, mem_intKeys_iff] at hnot
          omega
  · rintro ⟨s, hs, hunknown⟩
    cases hres : processRows catalog (groupedRows subs) (initTable catalog) with
    | error e =>
      refine ⟨e, ?_⟩
      unfold get_scoreboard
      rw [hres]
    | ok table =>
      exfalso
      have hpair : (s.group_id, s.task_id) ∈ distinctPairs subs :=
        (mem_distinctPairs subs (s.group_id, s.task_id)).mpr ⟨s, hs, rfl⟩
      have hrow := mem_groupedRows_of_pair subs s.group_id s.task_id hpair
      have h1 := (processRows_ok_requires catalog (groupedRows subs)
        (initTable catalog) table hres _ hrow).1
      obtain ⟨tk, htk⟩ := Option.isSome_iff_exists.mp h1
      have hmem : tk ∈ catalog := List.mem_of_find?_eq_some htk
      have hid : tk.task_id = s.task_id := by simpa using List.find?_some htk
      exact hunknown tk hmem hid

/-- Witness for the C10 theorem: a submission by group 10 on a catalog task
yields a KeyError; a submission by group 1 on an unknown task yields an
uncaught exception. -/
theorem get_scoreboard_bad_input_witness :
    (∃ g, get_scoreboard [⟨"t1", none⟩] [⟨10, "t1", "pw", true⟩] =
      .error (.keyError g) ∧ (g < 1 ∨ 9 < g)) ∧
    (∃ e, get_scoreboard [⟨"t1", none⟩] [⟨1, "zz", "pw", true⟩] = .error e) :=
  ⟨(get_scoreboard_bad_input [⟨"t1", none⟩] [⟨10, "t1", "pw", true⟩]).1
      (by decide) (by decide),
   (get_scoreboard_bad_input [⟨"t1", none⟩] [⟨1, "zz", "pw", true⟩]).2 (by decide)⟩

/-! ## Lemmas about the ranking -/

theorem mem_positiveGroups (st : PCStore) (g : Int) :
    g ∈ positiveGroups st ↔ 0 < g ∧ ∃ r ∈ st, r.used_by = g := by
  unfold positiveGroups
  rw [List.mem_dedup, List.mem_map]
  constructor
  · rintro ⟨r, hr, he⟩
    rw [List.mem_filter] at hr
    have hpos : 0 < r.used_by := by simpa using hr.2
    exact ⟨he ▸ hpos, r, hr.1, he⟩
  · rintro ⟨hg, r, hr, he⟩
    refine ⟨r, List.mem_filter.mpr ⟨hr, ?_⟩, he⟩
    simp only [decide_eq_true_eq]
    omega

theorem mem_rankedPart (st : PCStore) (g p : Int) :
    (g, p) ∈ rankedPart st ↔
      0 < g ∧ (∃ r ∈ st, r.used_by = g) ∧ p = groupSum st g := by
  unfold rankedPart
  rw [(List.mergeSort_perm _ pcLe).mem_iff, List.mem_map]
  constructor
  · rintro ⟨g2, hg2, he⟩
    rw [Prod.mk.injEq] at he
    obtain ⟨he1, he2⟩ := he
    subst he1
    obtain ⟨hpos, hex⟩ := (mem_positiveGroups st g2).mp hg2
    exact ⟨hpos, hex, he2.symm⟩
  · rintro ⟨hpos, hex, hp⟩
    exact ⟨g, (mem_positiveGroups st g).mpr ⟨hpos, hex⟩, by rw [hp]⟩

theorem rankedPart_fst_nodup (st : PCStore) : ((rankedPart st).map Prod.fst).Nodup := by
  unfold rankedPart
  have hperm := (List.mergeSort_perm
    ((positiveGroups st).map (fun g => (g, groupSum st g))) pcLe).map Prod.fst
  rw [hperm.nodup_iff]
  rw [List.map_map]
  have hc : (Prod.fst ∘ (fun g : Int => (g, groupSum st g))) = id := rfl
  rw [hc, List.map_id]
  exact List.nodup_dedup _

theorem rankedPart_sorted (st : PCStore) :
    (rankedPart st).Pairwise (fun a b : Int × Int =>
      b.2 < a.2 ∨ (a.2 = b.2 ∧ a.1 < b.1)) := by
  have htrans : ∀ a b c : Int × Int, pcLe a b = true → pcLe b c = true →
      pcLe a c = true := by
    intro a b c hab hbc
    simp only [pcLe, decide_eq_true_eq] at hab hbc ⊢
    omega
  have htotal : ∀ a b : Int × Int, (pcLe a b || pcLe b a) = true := by
    intro a b
    simp only [pcLe, Bool.or_eq_true, decide_eq_true_eq]
    omega
  have hsorted : (rankedPart st).Pairwise (fun a b => pcLe a b = true) :=
    List.sorted_mergeSort htrans htotal _
  have hne : (rankedPart st).Pairwise (fun a b : Int × Int => a.1 ≠ b.1) :=
    List.pairwise_map.mp (List.Pairwise.imp (fun h => h) (rankedPart_fst_nodup st))
  refine (hsorted.and hne).imp ?_
  intro a b hab
  obtain ⟨hle, hfst⟩ := hab
  simp only [pcLe, decide_eq_true_eq] at hle
  omega

/-- C4: `get_group_point` is the SQL ranking — one (group, total) row per
group holding redemptions (`used_by > 0`, so soft-deleted codes with
`used_by = -1` never contribute), totals summing `point` over the group's
rows, sorted by total descending with ties broken by group id ascending —
followed by a (i, 0) entry for every group i in 1..9 without redemptions;
group ids outside 1..9 holding redemptions are included in the ranked rows
but never padded. -/
theorem get_group_point_spec (st : PCStore) :
    get_group_point st = rankedPart st ++ paddingPart st ∧
    (∀ g p : Int, (g, p) ∈ rankedPart st ↔
      (0 < g ∧ (∃ r ∈ st, r.used_by = g) ∧ p = groupSum st g)) ∧
    (rankedPart st).Pairwise (fun a b : Int × Int =>
      b.2 < a.2 ∨ (a.2 = b.2 ∧ a.1 < b.1)) ∧
    (∀ g : Int, 0 < g → groupSum st g =
      ((st.filter (fun r => 0 < r.used_by ∧ r.used_by = g)).map (fun r => r.point)).sum) ∧
    (∀ q ∈ paddingPart st, q.2 = 0 ∧ 1 ≤ q.1 ∧ q.1 ≤ 9 ∧
      ¬∃ r ∈ st, 0 < r.used_by ∧ r.used_by = q.1) ∧
    (∀ i : Int, 1 ≤ i → i ≤ 9 → ¬(∃ r ∈ st, 0 < r.used_by ∧ r.used_by = i) →
      (i, 0) ∈ paddingPart st) := by
  refine ⟨rfl, mem_rankedPart st, rankedPart_sorted st, ?_, ?_, ?_⟩
  · intro g hg
    unfold groupSum
    have hfeq : st.filter (fun r => r.used_by = g) =
        st.filter (fun r => 0 < r.used_by ∧ r.used_by = g) := by
      refine List.filter_congr ?_
      intro r _
      by_cases h : r.used_by = g
      · simp [h, hg]
      · simp [h]
    rw [hfeq]
  · intro q hq
    unfold paddingPart at hq
    rw [List.mem_filterMap] at hq
    obtain ⟨i, hi, hf⟩ := hq
    by_cases hmem : (i : Int) ∈ (rankedPart st).map Prod.fst
    · rw [if_pos hmem] at hf
      exact absurd hf (by simp)
    · rw [if_neg hmem] at hf
      simp only [Option.some.injEq] at hf
      rw [List.mem_range'_1] at hi
      refine ⟨by rw [← hf], by rw [← hf]; simp; omega, by rw [← hf]; simp; omega, ?_⟩
      rintro ⟨r, hr, hpos, hused⟩
      refine hmem ?_
      have : (q.1, groupSum st q.1) ∈ rankedPart st :=
        (mem_rankedPart st q.1 (groupSum st q.1)).mpr
          ⟨by omega, ⟨r, hr, by omega⟩, rfl⟩
      have hq1 : q.1 = (i : Int) := by rw [← hf]
      rw [← hq1]
      exact List.mem_map.mpr ⟨(q.1, groupSum st q.1), this, rfl⟩
  · intro i h1 h9 hno
    unfold paddingPart
    rw [List.mem_filterMap]
    refine ⟨i.toNat, ?_, ?_⟩
    · rw [List.mem_range'_1]
      omega
    · have hcast : ((i.toNat : Nat) : Int) = i := by omega
      rw [if_neg ?_]
      · rw [hcast]
      · rw [hcast]
        intro hmem
        obtain ⟨q, hq, hqfst⟩ := List.mem_map.mp hmem
        have hqmem : (q.1, q.2) ∈ rankedPart st := by
          rw [Prod.mk.eta]
          exact hq
        obtain ⟨hpos, ⟨r, hr, hused⟩, _⟩ := (mem_rankedPart st q.1 q.2).mp hqmem
        exact hno ⟨r, hr, by omega, by omega⟩

/-- Witness for the C4 theorem: with one code worth 100 points redeemed by
group 3, the ranked rows contain (3, 100) and the padding contains (5, 0). -/
theorem get_group_point_spec_witness :
    ((3 : Int), (100 : Int)) ∈ rankedPart [⟨"a", 100, 3⟩] ∧
    ((5 : Int), (0 : Int)) ∈ paddingPart [⟨"a", 100, 3⟩] :=
  ⟨((get_group_point_spec [⟨"a", 100, 3⟩]).2.1 3 100).mpr (by decide),
   (get_group_point_spec [⟨"a", 100, 3⟩]).2.2.2.2.2 5 (by decide) (by decide) (by decide)⟩

end SitconBot
